import Mathlib

/-!
Verification development for the schematch matching core.

The TypeScript source is shallowly embedded: JavaScript runtime values become
the inductive type `Val`, schemas (Standard Schema validators) become records
of abstract functions, and the matching executor, dispatch-table builder,
precheck compiler and diagnostics builder are translated function by function
from `src` (`ReusableMatcher`, `buildDispatchTable`, `compileZodLikePrecheck`,
`analyzeFailure`, `getCompiledMatcher`, ...).
-/

/-- JavaScript runtime values, as far as the matching core inspects them.
`vBig` models BigInt (which `JSON.stringify` refuses to serialize), `vPromise`
models thenable pending computations, `vDate` models `Date` instances. -/
inductive Val where
  | vNull
  | vUndefined
  | vBool (b : Bool)
  | vNum (n : Int)
  | vBig (n : Int)
  | vStr (s : String)
  | vDate (t : Int)
  | vObj (fields : List (String × Val))
  | vArr (elems : List Val)
  | vPromise (id : Nat)
  deriving Repr

namespace Val

mutual

/-- Structural equality on embedded values; models `Object.is` / SameValueZero
(the two coincide on the fragment embedded here, which has no NaN or -0). -/
def beqV : Val → Val → Bool
  | vNull, vNull => true
  | vUndefined, vUndefined => true
  | vBool a, vBool b => a == b
  | vNum a, vNum b => a == b
  | vBig a, vBig b => a == b
  | vStr a, vStr b => a == b
  | vDate a, vDate b => a == b
  | vObj fs, vObj gs => beqFields fs gs
  | vArr xs, vArr ys => beqElems xs ys
  | vPromise a, vPromise b => a == b
  | _, _ => false

/-- Pointwise equality of object field lists. -/
def beqFields : List (String × Val) → List (String × Val) → Bool
  | [], [] => true
  | (k, v) :: fs, (k2, v2) :: gs => k == k2 && beqV v v2 && beqFields fs gs
  | _, _ => false

/-- Pointwise equality of array element lists. -/
def beqElems : List Val → List Val → Bool
  | [], [] => true
  | x :: xs, y :: ys => beqV x y && beqElems xs ys
  | _, _ => false

end

end Val

instance : BEq Val := ⟨Val.beqV⟩

/-- `isPlainObject` from `validation.ts`:
`!!value && typeof value === 'object' && !Array.isArray(value)`.
Promises and dates are objects in JavaScript, so they satisfy it too. -/
def isPlainObject : Val → Bool
  | .vObj _ => true
  | .vPromise _ => true
  | .vDate _ => true
  | _ => false

/-- `isPromiseLike` from `validation.ts`: a truthy object (or function) with a
`then` member. `vPromise` always qualifies; a plain object qualifies when it
carries a `then` field. -/
def isPromiseLike : Val → Bool
  | .vPromise _ => true
  | .vObj fs => fs.any (fun p => p.1 == "then")
  | _ => false

/-- JavaScript truthiness of an embedded value. -/
def truthy : Val → Bool
  | .vNull => false
  | .vUndefined => false
  | .vBool b => b
  | .vNum n => n != 0
  | .vBig n => n != 0
  | .vStr s => s ≠ ""
  | .vDate _ => true
  | .vObj _ => true
  | .vArr _ => true
  | .vPromise _ => true

/-- Property read `record[key]` on a JavaScript value: the first binding of
`key` on a plain object, `undefined` otherwise (objects have unique keys). -/
def getField : Val → String → Val
  | .vObj fs, key => ((fs.find? (fun p => p.1 == key)).map Prod.snd).getD .vUndefined
  | _, _ => .vUndefined

/-- `typeof` on an embedded value. -/
def typeofJs : Val → String
  | .vNull => "object"
  | .vUndefined => "undefined"
  | .vBool _ => "boolean"
  | .vNum _ => "number"
  | .vBig _ => "bigint"
  | .vStr _ => "string"
  | .vDate _ => "object"
  | .vObj _ => "object"
  | .vArr _ => "object"
  | .vPromise _ => "object"

-- ─── Validator contract ──────────────────────────────────────────────────────

/-- A Standard Schema issue: `{message, path?}`. -/
structure Issue where
  message : String
  path : Option (List String)
  deriving Repr, DecidableEq

/-- Result of calling a validator's raw `~standard.validate`: a success result,
a failure result with issues, or a pending computation (a returned Promise). -/
inductive ValidateRes where
  | success (value : Val)
  | failure (issues : List Issue)
  | pending

/-- Result of a compiled matcher's sync attempt (`matchSchemaSync`):
`NO_MATCH`, `ASYNC_REQUIRED`, or the matched (possibly transformed) value. -/
inductive SyncAttempt where
  | noMatch
  | asyncRequired
  | matched (v : Val)

/-- An opaque external validator, as consumed by the matching core.
`validate` is its raw `~standard.validate`; `attemptSync` is the behavior of
its compiled matcher's sync path (`matchSchemaSync`); `disc` is the result of
`extractDiscriminator` on it.

`extractDiscriminator` lives in `standard-schema/compiled.ts`, which is not
part of the sources here; per the spec (§4.2) it inspects the validator's
declared top-level object fields for one whose schema is a single literal and
returns `{key, value}` or null. Modelled from the spec: its result is carried
as an oracle field on the opaque validator. -/
structure Schema where
  id : Nat
  validate : Val → ValidateRes
  attemptSync : Val → SyncAttempt
  disc : Option (String × Val)

/-- Outcome of `validateSync` (`validation.ts` lines 14-23): it throws when
`validate` returns a promise, otherwise forwards the result. -/
inductive SyncValidation where
  | ok (value : Val)
  | fail (issues : List Issue)
  | threw

/-- `validateSync` from `validation.ts`: calls `~standard.validate` and throws
on a pending result. -/
def validateSyncM (s : Schema) (v : Val) : SyncValidation :=
  match s.validate v with
  | .success w => .ok w
  | .failure iss => .fail iss
  | .pending => .threw

-- ─── Clauses and the reusable matcher ────────────────────────────────────────

/-- One clause of a reusable matcher: either a schema clause
(`{schemas, predicate?, handler}`) or a bare-predicate clause
(`{when, handler}`). Guards and handlers are JavaScript functions returning
arbitrary values (possibly promises). -/
inductive Clause where
  | schemaClause (schemas : List Schema) (guard : Option (Val → Val → Val))
      (handler : Val → Val → Val)
  | whenClause (pred : Val → Val) (handler : Val → Val → Val)

/-- The hard errors the sync execution path can raise, one per message:
`Predicate returned a Promise...`, `Schema validation returned a Promise...`,
`Guard returned a Promise...` (each directing the caller to the async API). -/
inductive MErr where
  | predicatePromise
  | schemaAsyncRequired
  | guardPromise
  deriving Repr, DecidableEq

/-- The schema loop inside `ReusableMatcher.execClause`: try each schema in
order; `NO_MATCH` continues, `ASYNC_REQUIRED` throws, a match runs the guard
(throwing on a promise, continuing with the next schema of this same clause
when falsy) and otherwise invokes the handler. -/
def execSchemas (schemas : List Schema) (guard : Option (Val → Val → Val))
    (handler : Val → Val → Val) (input : Val) : Except MErr (Option Val) :=
  match schemas with
  | [] => .ok none
  | s :: rest =>
    match s.attemptSync input with
    | .noMatch => execSchemas rest guard handler input
    | .asyncRequired => .error .schemaAsyncRequired
    | .matched v =>
      match guard with
      | some g =>
        let gr := g v input
        if isPromiseLike gr then .error .guardPromise
        else if truthy gr then .ok (some (handler v input))
        else execSchemas rest guard handler input
      | none => .ok (some (handler v input))

/-- `ReusableMatcher.execClause`: a when-clause evaluates its predicate
(throwing on a promise), a schema clause runs the schema loop. `none` means
the clause fell through. -/
def execClause (c : Clause) (input : Val) : Except MErr (Option Val) :=
  match c with
  | .whenClause p h =>
    let r := p input
    if isPromiseLike r then .error .predicatePromise
    else if truthy r then .ok (some (h input input)) else .ok none
  | .schemaClause ss g h => execSchemas ss g h input

-- ─── Dispatch table ──────────────────────────────────────────────────────────

/-- The dispatch table derived from a clause list (`DispatchTable` in the
source): discriminator key, insertion-ordered value → clause-indices map,
fallback indices, and the expected values for diagnostics. -/
structure DispatchTable where
  key : String
  table : List (Val × List Nat)
  fallback : List Nat
  expectedValues : List Val

/-- Discriminator extraction for one clause: when-clauses have none; a schema
clause takes the first schema yielding a discriminator (the `for j` loop in
`buildDispatchTable`). -/
def clauseDisc : Clause → Option (String × Val)
  | .whenClause _ _ => none
  | .schemaClause ss _ _ => ss.findSome? (fun s => s.disc)

/-- The first loop of `buildDispatchTable`: walk the clauses accumulating the
per-clause discriminator (positional) and the common key; a clause reporting a
key different from the established common key aborts with `none`. -/
def scanClauses : List Clause → Option String →
    Option (List (Option (String × Val)) × Option String)
  | [], ck => some ([], ck)
  | c :: rest, ck =>
    match clauseDisc c with
    | none =>
      match scanClauses rest ck with
      | none => none
      | some (ds, ck2) => some (none :: ds, ck2)
    | some (k, v) =>
      match ck with
      | none =>
        match scanClauses rest (some k) with
        | none => none
        | some (ds, ck2) => some (some (k, v) :: ds, ck2)
      | some k0 =>
        if k0 = k then
          match scanClauses rest (some k0) with
          | none => none
          | some (ds, ck2) => some (some (k, v) :: ds, ck2)
        else none

/-- Insert a clause index under a discriminator value, JS-`Map` style: append
to an existing entry, else add a new entry at the end (insertion order). -/
def insertIdx : List (Val × List Nat) → Val → Nat → List (Val × List Nat)
  | [], v, i => [(v, [i])]
  | (w, is) :: rest, v, i =>
    if w == v then (w, is ++ [i]) :: rest else (w, is) :: insertIdx rest v i

/-- The table-building loop of `buildDispatchTable`: fold the positional
discriminator list into the value → indices map. -/
def buildTableAux : List (Option (String × Val)) → Nat → List (Val × List Nat) →
    List (Val × List Nat)
  | [], _, acc => acc
  | none :: ds, i, acc => buildTableAux ds (i + 1) acc
  | some (_, v) :: ds, i, acc => buildTableAux ds (i + 1) (insertIdx acc v i)

/-- The `fallbackIndices.push(i)` accumulation of `buildDispatchTable`:
indices (from `i` upward) of positions with no discriminator. -/
def fallbackOfAux : List (Option (String × Val)) → Nat → List Nat
  | [], _ => []
  | none :: ds, i => i :: fallbackOfAux ds (i + 1)
  | some _ :: ds, i => fallbackOfAux ds (i + 1)

/-- Indices of clauses with no extractable discriminator (`fallbackIndices`). -/
def fallbackOf (ds : List (Option (String × Val))) : List Nat :=
  fallbackOfAux ds 0

/-- `buildDispatchTable` (`part_004` lines 816-882): `null` for fewer than two
clauses, on a discriminator-key conflict, or when no clause yields a
discriminator; otherwise the value → indices table plus fallback set, with
`expectedValues` in first-seen (insertion) order. -/
def buildDispatchTable (clauses : List Clause) : Option DispatchTable :=
  if clauses.length < 2 then none
  else
    match scanClauses clauses none with
    | none => none
    | some (ds, ck) =>
      match ck with
      | none => none
      | some k =>
        let t := buildTableAux ds 0 []
        some { key := k, table := t, fallback := fallbackOf ds,
               expectedValues := t.map Prod.fst }

/-- JS `Map.get` on the embedded insertion-ordered map (SameValueZero keys). -/
def tableGet (t : List (Val × List Nat)) (v : Val) : Option (List Nat) :=
  (t.find? (fun p => p.1 == v)).map Prod.snd

-- ─── The executor ────────────────────────────────────────────────────────────

/-- A reusable matcher: terminal state (always `unmatched` at construction
sites, carried faithfully) and the clause list. -/
structure RMatcher where
  terminal : Option Val
  clauses : List Clause

/-- `getDispatch`: the lazily cached `buildDispatchTable` of the clause list
(caching a pure computation, so modelled as the computation itself). -/
def getDispatch (m : RMatcher) : Option DispatchTable :=
  buildDispatchTable m.clauses

/-- The clause loop shared by both branches of `ReusableMatcher.exec`: iterate
clauses in original order from index `i`, skipping any index for which `keep`
is false, stopping at the first clause that matches or throws. -/
def runClauses : List Clause → (Nat → Bool) → Val → Nat → Except MErr (Option Val)
  | [], _, _, _ => .ok none
  | c :: rest, keep, input, i =>
    if keep i then
      match execClause c input with
      | .error e => .error e
      | .ok (some r) => .ok (some r)
      | .ok none => runClauses rest keep input (i + 1)
    else runClauses rest keep input (i + 1)

/-- The keep-predicate `ReusableMatcher.exec` uses: with a dispatch table and a
plain-object input, a clause survives when it is a candidate for the input's
discriminator value or a fallback clause (`candidateSet?.has(i) ||
fallbackSet.has(i)`); otherwise every clause survives. -/
def activeKeep (m : RMatcher) (input : Val) : Nat → Bool :=
  match getDispatch m with
  | some d =>
    if isPlainObject input then
      fun i =>
        ((tableGet d.table (getField input d.key)).elim false (fun cs => cs.contains i))
          || d.fallback.contains i
    else fun _ => true
  | none => fun _ => true

/-- `ReusableMatcher.exec` (`part_004` lines 1170-1197): with a dispatch table
and a plain-object input, iterate all clauses in original order but skip
non-candidate, non-fallback indices; otherwise a pure linear scan. When no
clause matches, the terminal state is returned. -/
def exec (m : RMatcher) (input : Val) : Except MErr (Option Val) :=
  (runClauses m.clauses (activeKeep m input) input 0).map
    (fun r => match r with | some w => some w | none => m.terminal)

/-- The pure linear scan over all clauses in declaration order (the
`exec` branch taken when no dispatch table exists or the input is not a plain
object), used as the reference executor for dispatch-pruning claims. -/
def linearScan (clauses : List Clause) (input : Val) : Except MErr (Option Val) :=
  runClauses clauses (fun _ => true) input 0

-- ─── Diagnostics (errors.ts / MatchError) ────────────────────────────────────

mutual

/-- Does a value contain a BigInt anywhere? `JSON.stringify` throws a
`TypeError` on such values, which is how stringification fails at runtime. -/
def hasBig : Val → Bool
  | .vBig _ => true
  | .vObj fs => hasBigFields fs
  | .vArr xs => hasBigElems xs
  | _ => false

/-- `hasBig` over object fields. -/
def hasBigFields : List (String × Val) → Bool
  | [] => false
  | (_, v) :: fs => hasBig v || hasBigFields fs

/-- `hasBig` over array elements. -/
def hasBigElems : List Val → Bool
  | [] => false
  | x :: xs => hasBig x || hasBigElems xs

end

mutual

/-- The successful output of `JSON.stringify` on an embedded value. -/
def jsonStr : Val → String
  | .vNull => "null"
  | .vUndefined => "undefined"
  | .vBool b => if b then "true" else "false"
  | .vNum n => toString n
  | .vBig n => toString n
  | .vStr s => "\"" ++ s ++ "\""
  | .vDate t => "\"date:" ++ toString t ++ "\""
  | .vObj fs => "\x7b" ++ jsonStrFields fs ++ "\x7d"
  | .vArr xs => "[" ++ jsonStrElems xs ++ "]"
  | .vPromise _ => "\x7b\x7d"

/-- `jsonStr` over object fields. -/
def jsonStrFields : List (String × Val) → String
  | [] => ""
  | (k, v) :: fs => "\"" ++ k ++ "\":" ++ jsonStr v ++
      (if fs.isEmpty then "" else ",") ++ jsonStrFields fs

/-- `jsonStr` over array elements. -/
def jsonStrElems : List Val → String
  | [] => ""
  | x :: xs => jsonStr x ++ (if xs.isEmpty then "" else ",") ++ jsonStrElems xs

end

/-- `JSON.stringify` as the diagnostics code calls it: `none` models a throw
(BigInt content stands in for unserializable inputs such as cyclic ones, which
the inductive `Val` cannot express). -/
def jsonStringify (v : Val) : Option String :=
  if hasBig v then none else some (jsonStr v)

/-- JavaScript `String(value)`, the catch-branch placeholder. -/
def strOf : Val → String
  | .vNull => "null"
  | .vUndefined => "undefined"
  | .vBool b => if b then "true" else "false"
  | .vNum n => toString n
  | .vBig n => toString n
  | .vStr s => s
  | .vDate t => "date:" ++ toString t
  | .vObj _ => "[object Object]"
  | .vArr _ => "[array]"
  | .vPromise _ => "[object Promise]"

/-- `displayValue` (`errors.ts` lines 129-135): `JSON.stringify` inside a
try/catch, degrading to `String(value)`. -/
def displayValue (v : Val) : String :=
  match jsonStringify v with
  | some s => s
  | none => strOf v

/-- `displayValues`: comma-join the displayed values. -/
def displayValues (vs : List Val) : String :=
  String.intercalate ", " (vs.map displayValue)

/-- The discriminator info record attached to a `MatchError`:
`{key, value, expected, matched}`. -/
structure DiscInfoE where
  key : String
  value : Val
  expected : List Val
  matched : Bool

/-- `MatchErrorOptions`: the schemas consulted and optional discriminator
info (an absent `schemas` array is the empty list). -/
structure MatchErrorOptions where
  schemas : List Schema
  discriminator : Option DiscInfoE

/-- The per-case issue tagging of `analyzeFailure`:
`Case ${i + 1}: ${issue.message}` with the original path. -/
def caseIssues (i : Nat) (iss : List Issue) : List Issue :=
  iss.map (fun x => { message := s!"Case {i + 1}: {x.message}", path := x.path })

/-- The validation loop of `analyzeFailure` (and of `buildFailureResult`):
re-validate each schema with `validateSync`, tagging each reported issue with
its case number; schemas whose synchronous validation throws are skipped. -/
def collectIssuesAux (schemas : List Schema) (input : Val) (i : Nat) : List Issue :=
  match schemas with
  | [] => []
  | s :: rest =>
    (match validateSyncM s input with
     | .fail iss => caseIssues i iss
     | _ => []) ++ collectIssuesAux rest input (i + 1)

/-- `collectIssuesAux` from case number 1 (index 0). -/
def collectIssues (schemas : List Schema) (input : Val) : List Issue :=
  collectIssuesAux schemas input 0

/-- `formatNoMatchMessage`: the generic no-schema-matches diagnostic. -/
def formatNoMatchMessage (input : Val) : String :=
  s!"No schema matches value {displayValue input}"

/-- The discriminator-mismatch diagnostic of `analyzeFailure` (apostrophes
around the key elided). -/
def discMismatchMessage (key : String) (value : Val) (expected : List Val) : String :=
  s!"Discriminator {key} has value {displayValue value} but expected one of: {displayValues expected}"

/-- The final fallback of `analyzeFailure`: when the loop produced no issues
at all, emit the single generic message. -/
def finishIssues (iss : List Issue) (input : Val) : List Issue :=
  if iss.isEmpty then [{ message := formatNoMatchMessage input, path := none }] else iss

/-- The `issues` component of `analyzeFailure` (`errors.ts` lines 44-89): no
schemas → generic message; discriminator present and unmatched → the single
discriminator diagnostic with path `[key]`, with no validation run; otherwise
the per-case validation loop, with the generic fallback when it yields
nothing. (The parallel `prettyCases` pretty-printing feeds only the free-form
message text and is not modelled.) -/
def analyzeFailure (input : Val) (opts : MatchErrorOptions) : List Issue :=
  if opts.schemas.isEmpty then [{ message := formatNoMatchMessage input, path := none }]
  else
    match opts.discriminator with
    | some d =>
      if d.matched then finishIssues (collectIssues opts.schemas input) input
      else [{ message := discMismatchMessage d.key d.value d.expected,
              path := some [d.key] }]
    | none => finishIssues (collectIssues opts.schemas input) input

/-- The schemas of a schema clause (`'schemas' in c ? c.schemas : []`). -/
def clauseSchemas : Clause → List Schema
  | .schemaClause ss _ _ => ss
  | .whenClause _ _ => []

/-- `allSchemas`: every schema across every clause, in clause order
(`this.clauses.flatMap(...)`). -/
def allSchemas (m : RMatcher) : List Schema :=
  m.clauses.flatMap clauseSchemas

/-- The `MatchError` as the claims observe it: its `issues`, the `schemas`
subset consulted, and the discriminator info. -/
structure MatchErrorModel where
  issues : List Issue
  schemas : List Schema
  discriminator : Option DiscInfoE

/-- `ReusableMatcher.buildMatchError` (`part_004` lines 1062-1086) composed
with the `MatchError` constructor: with a dispatch table, read the input's
discriminator value (when it is a plain object), look up the candidate clause
indices, record the discriminator info, and — when candidates exist — narrow
the consulted schemas to the candidate clauses' schemas before running
`analyzeFailure`. -/
def buildMatchError (m : RMatcher) (input : Val) : MatchErrorModel :=
  let base := allSchemas m
  match getDispatch m with
  | none =>
    { issues := analyzeFailure input { schemas := base, discriminator := none },
      schemas := base, discriminator := none }
  | some d =>
    let discValue := if isPlainObject input then getField input d.key else .vUndefined
    let candidates := if isPlainObject input then tableGet d.table discValue else none
    let matched := candidates.isSome
    let schemas :=
      match candidates with
      | some idxs => idxs.flatMap (fun i => ((m.clauses.get? i).map clauseSchemas).getD [])
      | none => base
    let disc : DiscInfoE :=
      { key := d.key, value := discValue, expected := d.expectedValues, matched := matched }
    { issues := analyzeFailure input { schemas := schemas, discriminator := some disc },
      schemas := schemas, discriminator := some disc }

/-- `ReusableMatcher.buildFailureResult` (`part_004` lines 1089-1116): the
standard-schema failure issues for `~standard.validate` — the same per-case
validation loop over all schemas, with the generic single-message fallback. -/
def buildFailureResult (m : RMatcher) (input : Val) : List Issue :=
  finishIssues (collectIssues (allSchemas m) input) input

/-- The matcher's `~standard.validate` (`ReusableMatcher` constructor,
`part_004` lines 921-937): run `exec`; a matched state yields a success
result with the matched value, otherwise the failure result. Exceptions from
`exec` propagate. -/
def rmValidate (m : RMatcher) (input : Val) : Except MErr (Except (List Issue) Val) :=
  (exec m input).map
    (fun r => match r with
      | some w => .ok w
      | none => .error (buildFailureResult m input))

-- ─── Zod-like precheck compiler (validation.ts lines 252-370) ────────────────

/-- The `typeof`-tag primitive schema types the precheck recognizes
(`string | number | boolean | bigint | symbol`). -/
inductive PrimTag where
  | pstring
  | pnumber
  | pboolean
  | pbigint
  | psymbol
  deriving Repr, DecidableEq

/-- The `def.type` string of a primitive tag. -/
def PrimTag.str : PrimTag → String
  | .pstring => "string"
  | .pnumber => "number"
  | .pboolean => "boolean"
  | .pbigint => "bigint"
  | .psymbol => "symbol"

/-- A zod-like schema definition tree (`schema._def`). `checks` embeds
`def.checks` as opaque refinement predicates (the compiler only reads whether
the array is non-empty). `unknownDef` covers every `def.type` the `switch`
does not recognize — pipes, transforms, records, maps, ... — carrying its
opaque validation behavior. -/
inductive ZodDef where
  | literal (values : List Val) (checks : List (Val → Bool))
  | object (shape : List (String × ZodDef)) (checks : List (Val → Bool))
  | tuple (items : List ZodDef) (rest : Bool) (checks : List (Val → Bool))
  | union (options : List ZodDef) (checks : List (Val → Bool))
  | prim (t : PrimTag) (checks : List (Val → Bool))
  | nullT (checks : List (Val → Bool))
  | undefT (checks : List (Val → Bool))
  | dateT (checks : List (Val → Bool))
  | custom (fn : Val → Bool) (checks : List (Val → Bool))
  | unknownDef (accepts : Val → Option Val)

/-- A compiled precheck: the cheap boolean `check` plus the `complete`
classification (see the source doc comment: complete means no transforms,
pipes, refinements, or unhandled type constraints exist in the tree). -/
structure PrecheckRes where
  check : Val → Bool
  complete : Bool

/-- The per-position loop of the tuple check: a position with no compiled
sub-check is unconstrained. -/
def tupleChecksOK : List (Option (Val → Bool)) → List Val → Bool
  | [], _ => true
  | _ :: _, [] => true
  | c :: cs, x :: xs => ((c.map (fun f => f x)).getD true) && tupleChecksOK cs xs

mutual

/-- `compileZodLikePrecheck` (`validation.ts` lines 252-370), case by case on
`def.type`; `none` is the source's `null`. `hasChecks` is
`def.checks.length > 0`. -/
def compileZodLikePrecheck : ZodDef → Option PrecheckRes
  | .literal values cks =>
    match values with
    | [l] => some { check := fun v => v == l, complete := cks.isEmpty }
    | _ => none
  | .object shape cks =>
    let results := compileFields shape
    let checks := results.filterMap (fun kr => kr.2.map (fun r => (kr.1, r.check)))
    if checks.isEmpty then some { check := isPlainObject, complete := false }
    else
      let allComplete := cks.isEmpty &&
        results.all (fun kr => (kr.2.map PrecheckRes.complete).getD false)
      some
        { check := fun v => isPlainObject v &&
            checks.all (fun kc => kc.2 (getField v kc.1)),
          complete := allComplete && checks.length == results.length }
  | .tuple items rest cks =>
    if items.isEmpty && !rest then
      some { check := fun v => match v with
              | .vArr xs => xs.isEmpty
              | _ => false,
             complete := cks.isEmpty }
    else
      let itemResults := compileItems items
      let checks := itemResults.map (fun r => r.map PrecheckRes.check)
      let allComplete := cks.isEmpty && !rest &&
        itemResults.all (fun r => (r.map PrecheckRes.complete).getD false)
      some
        { check := fun v => match v with
            | .vArr xs =>
              decide (items.length ≤ xs.length) &&
                (rest || xs.length == items.length) && tupleChecksOK checks xs
            | _ => false,
          complete := allComplete }
  | .union options _cks =>
    -- the source's union branch computes `complete` without consulting
    -- `hasChecks`, unlike every other branch
    if options.isEmpty then none
    else
      let results := (compileItems options).filterMap id
      if results.isEmpty then none
      else
        some
          { check := fun v => results.any (fun r => r.check v),
            complete := results.length == options.length &&
              results.all PrecheckRes.complete }
  | .prim t cks => some { check := fun v => typeofJs v == t.str, complete := cks.isEmpty }
  | .nullT cks => some { check := fun v => v == .vNull, complete := cks.isEmpty }
  | .undefT cks => some { check := fun v => v == .vUndefined, complete := cks.isEmpty }
  | .dateT cks =>
    some { check := fun v => match v with | .vDate _ => true | _ => false,
           complete := cks.isEmpty }
  | .custom fn cks => some { check := fn, complete := cks.isEmpty }
  | .unknownDef _ => none

/-- The per-field compilation of the `object` case. -/
def compileFields : List (String × ZodDef) → List (String × Option PrecheckRes)
  | [] => []
  | (k, d) :: rest => (k, compileZodLikePrecheck d) :: compileFields rest

/-- The per-item compilation of the `tuple` and `union` cases. -/
def compileItems : List ZodDef → List (Option PrecheckRes)
  | [] => []
  | d :: rest => compileZodLikePrecheck d :: compileItems rest

end

mutual

/-- Modelled from the spec: the full validation a zod-like schema definition
performs (the external `_zod.run`, which is not part of these sources).
Per the spec, a validator checks its declared shape — literal membership,
`typeof` tags, per-field object checks, per-position tuple checks, any-option
unions — applies every attached refinement check, and an unrecognized node
validates by its own opaque behavior. Acceptance only (output values are not
needed by the claims settled against this model). -/
def zodAccepts : ZodDef → Val → Bool
  | .literal values cks, v => values.any (fun l => l == v) && cks.all (fun c => c v)
  | .object shape cks, v =>
    isPlainObject v && zodFieldsAccept shape v && cks.all (fun c => c v)
  | .tuple items rest cks, v =>
    (match v with
     | .vArr xs =>
       decide (items.length ≤ xs.length) && (rest || xs.length == items.length) &&
         zodItemsAccept items xs
     | _ => false) && cks.all (fun c => c v)
  | .union options cks, v => zodOptionsAccept options v && cks.all (fun c => c v)
  | .prim t cks, v => typeofJs v == t.str && cks.all (fun c => c v)
  | .nullT cks, v => v == .vNull && cks.all (fun c => c v)
  | .undefT cks, v => v == .vUndefined && cks.all (fun c => c v)
  | .dateT cks, v =>
    (match v with | .vDate _ => true | _ => false) && cks.all (fun c => c v)
  | .custom fn cks, v => fn v && cks.all (fun c => c v)
  | .unknownDef accepts, v => (accepts v).isSome

/-- Modelled from the spec: per-field acceptance for object schemas. -/
def zodFieldsAccept : List (String × ZodDef) → Val → Bool
  | [], _ => true
  | (k, d) :: rest, v => zodAccepts d (getField v k) && zodFieldsAccept rest v

/-- Modelled from the spec: per-position acceptance for tuple schemas. -/
def zodItemsAccept : List ZodDef → List Val → Bool
  | [], _ => true
  | _ :: _, [] => false
  | d :: ds, x :: xs => zodAccepts d x && zodItemsAccept ds xs

/-- Modelled from the spec: any-option acceptance for union schemas. -/
def zodOptionsAccept : List ZodDef → Val → Bool
  | [], _ => false
  | d :: ds, v => zodAccepts d v || zodOptionsAccept ds v

end

/-- The result of a call to the library-internal `run` (`_zod.run`): the
payload with its final value and issues, or a pending computation. -/
inductive ZodRunRes where
  | done (value : Val) (issues : List Issue)
  | pending

/-- The generic run path of `compileZodMatcher`: pending means
`ASYNC_REQUIRED`, otherwise an empty issue list yields the run's value. -/
def zodRunPath (run : Val → ZodRunRes) (v : Val) : SyncAttempt :=
  match run v with
  | .pending => .asyncRequired
  | .done value issues => if issues.isEmpty then .matched value else .noMatch

/-- The sync closure `compileZodMatcher` builds (`validation.ts` lines
170-209): with a complete precheck, skip `run` entirely and return the raw
input on precheck pass; with a partial precheck, reject early on precheck
failure before invoking `run`; with no precheck, always `run`. -/
def compileZodMatcherSync (d : ZodDef) (run : Val → ZodRunRes) : Val → SyncAttempt :=
  match compileZodLikePrecheck d with
  | some r =>
    if r.complete then fun v => if r.check v then .matched v else .noMatch
    else fun v => if !r.check v then .noMatch else zodRunPath run v
  | none => fun v => zodRunPath run v

-- ─── Compiled-matcher cache (getCompiledMatcher) ─────────────────────────────

/-- A validator object as the cache sees it: its identity and whether the
hidden-slot symbol assignment succeeds on it (`annotatable`; a frozen object
throws, sending the compiled matcher to the identity-keyed `WeakMap`). -/
structure SchemaObj where
  id : Nat
  annotatable : Bool

/-- The process-wide caching state: hidden-slot attachments, the `WeakMap`
side table, and the log of identities actually compiled (the spec's call
counter observing that expensive introspection is not re-run). -/
structure CacheState (CM : Type) where
  slots : List (Nat × CM)
  side : List (Nat × CM)
  log : List Nat

/-- Identity-keyed lookup in a cache backend. -/
def lookupById {CM : Type} (l : List (Nat × CM)) (i : Nat) : Option CM :=
  (l.find? (fun p => p.1 == i)).map Prod.snd

/-- `getCompiledMatcher` (`validation.ts` lines 67-84): return the hidden-slot
cache hit, else the `WeakMap` hit, else compile, store (hidden slot when the
object can be annotated, `WeakMap` otherwise) and return. `compile` is the
`compileMatcher` pipeline, abstract here. -/
def getCompiledMatcher {CM : Type} (compile : SchemaObj → CM) (s : SchemaObj)
    (st : CacheState CM) : CM × CacheState CM :=
  match lookupById st.slots s.id with
  | some m => (m, st)
  | none =>
    match lookupById st.side s.id with
    | some m => (m, st)
    | none =>
      let m := compile s
      if s.annotatable then
        (m, { slots := (s.id, m) :: st.slots, side := st.side, log := st.log ++ [s.id] })
      else
        (m, { slots := st.slots, side := (s.id, m) :: st.side, log := st.log ++ [s.id] })

-- ─── Concrete demonstration schemas and matchers ─────────────────────────────

/-- One step of the schema loop that neither matches nor throws: a `NO_MATCH`
attempt, or a match whose guard returns a non-promise falsy value. -/
def stepContinues (g : Option (Val → Val → Val)) (input : Val) (s : Schema) : Bool :=
  match s.attemptSync input with
  | .noMatch => true
  | .asyncRequired => false
  | .matched v =>
    match g with
    | none => false
    | some gf => !isPromiseLike (gf v input) && !truthy (gf v input)

/-- A validator accepting exactly plain objects whose `type` field is the
given literal tag; its extracted discriminator is `("type", tag)` (a zod-like
`z.object({type: z.literal(tag)}).passthrough()` shape). -/
def objTypeIs (n : Nat) (tag : String) : Schema :=
  { id := n,
    validate := fun v =>
      if isPlainObject v && getField v "type" == Val.vStr tag then .success v
      else .failure [{ message := "expected type " ++ tag, path := some ["type"] }],
    attemptSync := fun v =>
      if isPlainObject v && getField v "type" == Val.vStr tag then .matched v
      else .noMatch,
    disc := some ("type", Val.vStr tag) }

/-- A validator accepting any plain object, with no extractable
discriminator. -/
def anyObjectSchema : Schema :=
  { id := 10,
    validate := fun v =>
      if isPlainObject v then .success v
      else .failure [{ message := "expected object", path := none }],
    attemptSync := fun v => if isPlainObject v then .matched v else .noMatch,
    disc := none }

/-- A validator accepting every value unchanged. -/
def anyValueSchema : Schema :=
  { id := 20,
    validate := fun v => .success v,
    attemptSync := fun v => .matched v,
    disc := none }

/-- A validator whose sync compiled path reports `ASYNC_REQUIRED` and whose
raw validation returns a pending computation. -/
def asyncOnlySchema : Schema :=
  { id := 30,
    validate := fun _ => .pending,
    attemptSync := fun _ => .asyncRequired,
    disc := none }

/-- A validator accepting exactly the numbers 2 (used by guard fallthrough
demonstrations). -/
def isExactly (n : Nat) (target : Int) : Schema :=
  { id := n,
    validate := fun v =>
      if v == Val.vNum target then .success v
      else .failure [{ message := "expected " ++ toString target, path := none }],
    attemptSync := fun v => if v == Val.vNum target then .matched v else .noMatch,
    disc := none }

/-- The clause list of the dispatch-pruning demonstration: the first clause
pairs a `type: "a"` schema with an any-object schema, the second clause is a
`type: "c"` schema; the dispatch table indexes clause 0 only under `"a"`. -/
def c1Clauses : List Clause :=
  [ .schemaClause [objTypeIs 0 "a", anyObjectSchema] none (fun v _ => v),
    .schemaClause [objTypeIs 1 "c"] none (fun v _ => v) ]

/-- The reusable matcher over `c1Clauses`. -/
def c1Matcher : RMatcher := { terminal := none, clauses := c1Clauses }

/-- The probe input `{type: "b"}`: accepted by `anyObjectSchema` in clause 0,
but pruned away by the dispatch table. -/
def c1Input : Val := .vObj [("type", .vStr "b")]

/-- A zod-like union with a single literal option and one node-level check
(`z.union([z.literal("a")]).refine(...)` with an always-failing refinement). -/
def c2Def : ZodDef := .union [.literal [Val.vStr "a"] []] [fun _ => false]

/-- The library `run` for `c2Def`: full validation applies the refinement,
which fails, so the payload carries an issue. -/
def c2Run : Val → ZodRunRes :=
  fun v => .done v [{ message := "refinement failed", path := none }]

/-- A zod-like union of a string schema and an unrecognized schema (say
`z.union([z.string(), z.record(z.string())])`); the unrecognized option
accepts plain objects. -/
def c3Def : ZodDef :=
  .union [.prim .pstring [], .unknownDef (fun v => if isPlainObject v then some v else none)]
    []

/-- The probe input `{}` for the partial-precheck demonstration: accepted by
the unrecognized union option, rejected by the derived precheck. -/
def c3Input : Val := .vObj []

/-- The library `run` for `c3Def`: full validation accepts (via the second
option), reporting no issues. -/
def c3Run : Val → ZodRunRes := fun v => .done v []

/-- A matcher whose single clause always matches and whose handler returns a
pending computation (an `async` handler used on the sync path). -/
def c4Matcher : RMatcher :=
  { terminal := none,
    clauses := [.schemaClause [anyValueSchema] none (fun _ _ => Val.vPromise 0)] }

/-- A matcher whose single clause holds an asynchronous validator. -/
def c4wMatcher : RMatcher :=
  { terminal := none,
    clauses := [.schemaClause [asyncOnlySchema] none (fun v _ => v)] }

/-- A guarded clause with two schemas whose guard always returns `false`. -/
def c5Clause : Clause :=
  .schemaClause [isExactly 40 2, anyValueSchema] (some (fun _ _ => Val.vBool false))
    (fun v _ => v)

/-- A two-clause discriminated matcher for diagnostics demonstrations:
`type: "ok"` and `type: "err"`. -/
def c6Matcher : RMatcher :=
  { terminal := none,
    clauses := [ .schemaClause [objTypeIs 50 "ok"] none (fun v _ => v),
                 .schemaClause [objTypeIs 51 "err"] none (fun v _ => v) ] }

/-- A clause list with one discriminated clause and one when-clause (which
lands in the fallback set of the dispatch table). -/
def c7wWhenClause : Clause :=
  .whenClause (fun _ => Val.vBool false) (fun v _ => v)

/-- The two-clause list of the fallback-membership demonstration. -/
def c7wClauses : List Clause :=
  [ .schemaClause [objTypeIs 60 "a"] none (fun v _ => v), c7wWhenClause ]

/-- The dispatch table the executor derives from `c6Matcher`. -/
def c6Table : DispatchTable :=
  { key := "type",
    table := [(Val.vStr "ok", [0]), (Val.vStr "err", [1])],
    fallback := [],
    expectedValues := [Val.vStr "ok", Val.vStr "err"] }

/-- The dispatch table the executor derives from `c7wClauses`. -/
def c7wTable : DispatchTable :=
  { key := "type",
    table := [(Val.vStr "a", [0])],
    fallback := [1],
    expectedValues := [Val.vStr "a"] }

-- ─── Helper lemmas ───────────────────────────────────────────────────────────

/-- Splitting a list at a position known to hold an element. -/
theorem drop_eq_cons_of_get? {α : Type} :
    ∀ (l : List α) (j : Nat) (x : α), l.get? j = some x →
      l.drop j = x :: l.drop (j + 1)
  | [], j, x, h => by cases j <;> simp at h
  | a :: l, 0, x, h => by simp at h; simp [h]
  | a :: l, j + 1, x, h => by
    simpa using drop_eq_cons_of_get? l j x (by simpa using h)

/-- The schema loop ignores a prefix of continuing steps. -/
theorem execSchemas_skip (g : Option (Val → Val → Val)) (h : Val → Val → Val)
    (input : Val) :
    ∀ (ss : List Schema) (j : Nat),
      (∀ k s2, k < j → ss.get? k = some s2 → stepContinues g input s2 = true) →
      execSchemas ss g h input = execSchemas (ss.drop j) g h input := by
  intro ss
  induction ss with
  | nil => intro j _; simp
  | cons s rest ih =>
    intro j hcont
    cases j with
    | zero => simp
    | succ j =>
      have hs : stepContinues g input s = true :=
        hcont 0 s (Nat.succ_pos j) rfl
      have step : execSchemas (s :: rest) g h input = execSchemas rest g h input := by
        unfold stepContinues at hs
        cases ha : s.attemptSync input with
        | noMatch => conv_lhs => rw [execSchemas]; rw [ha]
        | asyncRequired => rw [ha] at hs; simp at hs
        | matched v =>
          rw [ha] at hs
          cases g with
          | none => simp at hs
          | some gf =>
            simp only [Bool.and_eq_true, Bool.not_eq_true'] at hs
            conv_lhs => rw [execSchemas]; rw [ha]
            simp [hs.1, hs.2]
      rw [step]
      have hdrop : (s :: rest).drop (j + 1) = rest.drop j := by simp
      rw [hdrop]
      exact ih j (fun k s2 hk hg => hcont (k + 1) s2 (Nat.succ_lt_succ hk) (by simpa using hg))

/-- With the all-true keep predicate the clause loop ignores its start index. -/
theorem runClauses_true_index (input : Val) :
    ∀ (cs : List Clause) (n n2 : Nat),
      runClauses cs (fun _ => true) input n = runClauses cs (fun _ => true) input n2 := by
  intro cs
  induction cs with
  | nil => intro n n2; rfl
  | cons c rest ih =>
    intro n n2
    simp only [runClauses]
    cases execClause c input with
    | error e => rfl
    | ok r =>
      cases r with
      | some w => rfl
      | none => exact ih (n + 1) (n2 + 1)

/-- The clause loop surfaces the first surviving clause's hard error, provided
every earlier surviving clause fell through. -/
theorem runClauses_error_propagates (input : Val) :
    ∀ (cs : List Clause) (keep : Nat → Bool) (n i : Nat) (c : Clause) (e : MErr),
      cs.get? i = some c → keep (n + i) = true → execClause c input = .error e →
      (∀ k c2, k < i → cs.get? k = some c2 → keep (n + k) = true →
        execClause c2 input = .ok none) →
      runClauses cs keep input n = .error e := by
  intro cs
  induction cs with
  | nil => intro keep n i c e hi; cases i <;> simp at hi
  | cons c0 rest ih =>
    intro keep n i c e hi hkeep herr hprev
    cases i with
    | zero =>
      simp at hi
      subst hi
      simp only [runClauses]
      rw [show n + 0 = n from rfl] at hkeep
      simp [hkeep, herr]
    | succ i =>
      simp only [runClauses]
      by_cases hk0 : keep n = true
      · have h0 : execClause c0 input = .ok none := by
          have := hprev 0 c0 (Nat.succ_pos i) rfl
          rw [show n + 0 = n from rfl] at this
          exact this hk0
        rw [hk0]
        simp only [if_true, h0]
        exact ih keep (n + 1) i c e (by simpa using hi)
          (by rw [show n + 1 + i = n + (i + 1) from by omega]; exact hkeep)
          herr
          (fun k c2 hki hgk hkk => by
            have := hprev (k + 1) c2 (Nat.succ_lt_succ hki) (by simpa using hgk)
            rw [show n + (k + 1) = n + 1 + k from by omega] at this
            exact this hkk)
      · have hk0f : keep n = false := by
          cases hv : keep n
          · rfl
          · exact absurd hv hk0
        rw [hk0f]
        simp only [Bool.false_eq_true, if_false]
        exact ih keep (n + 1) i c e (by simpa using hi)
          (by rw [show n + 1 + i = n + (i + 1) from by omega]; exact hkeep)
          herr
          (fun k c2 hki hgk hkk => by
            have := hprev (k + 1) c2 (Nat.succ_lt_succ hki) (by simpa using hgk)
            rw [show n + (k + 1) = n + 1 + k from by omega] at this
            exact this hkk)

/-- The final fallback never leaves the issue list empty. -/
theorem finishIssues_ne_nil (iss : List Issue) (input : Val) :
    finishIssues iss input ≠ [] := by
  unfold finishIssues
  by_cases h : iss.isEmpty
  · simp [h]
  · simp [h]
    intro hrw
    rw [hrw] at h
    simp at h

/-- Once a common key is fixed, a successful scan keeps it. -/
theorem scanClauses_some_fixed (k0 : String) :
    ∀ (cs : List Clause) (ds : List (Option (String × Val))) (ck2 : Option String),
      scanClauses cs (some k0) = some (ds, ck2) → ck2 = some k0 := by
  intro cs
  induction cs with
  | nil =>
    intro ds ck2 hscan
    simp [scanClauses] at hscan
    exact hscan.2.symm
  | cons c rest ih =>
    intro ds ck2 hscan
    simp only [scanClauses] at hscan
    cases hdc : clauseDisc c with
    | none =>
      rw [hdc] at hscan
      cases hsc : scanClauses rest (some k0) with
      | none => rw [hsc] at hscan; simp at hscan
      | some p =>
        rw [hsc] at hscan
        simp at hscan
        exact hscan.2 ▸ ih p.1 p.2 hsc
    | some kv =>
      obtain ⟨k, v⟩ := kv
      rw [hdc] at hscan
      simp only at hscan
      by_cases hk : k0 = k
      · rw [if_pos hk] at hscan
        cases hsc : scanClauses rest (some k0) with
        | none => rw [hsc] at hscan; simp at hscan
        | some p =>
          rw [hsc] at hscan
          simp at hscan
          rw [← hscan.2]
          exact ih p.1 p.2 hsc
      · rw [if_neg hk] at hscan; simp at hscan

/-- With a common key fixed, the scan aborts exactly when some clause reports
a discriminator under a different key. -/
theorem scanClauses_conflict (k0 : String) :
    ∀ cs : List Clause,
      scanClauses cs (some k0) = none ↔
        ∃ c, c ∈ cs ∧ ∃ kv : String × Val, clauseDisc c = some kv ∧ kv.1 ≠ k0 := by
  intro cs
  induction cs with
  | nil => simp [scanClauses]
  | cons c rest ih =>
    constructor
    · intro hscan
      simp only [scanClauses] at hscan
      cases hdc : clauseDisc c with
      | none =>
        rw [hdc] at hscan
        cases hsc : scanClauses rest (some k0) with
        | none =>
          obtain ⟨c2, hc2, kv, hkv, hne⟩ := ih.mp hsc
          exact ⟨c2, List.mem_cons_of_mem c hc2, kv, hkv, hne⟩
        | some p => rw [hsc] at hscan; simp at hscan
      | some kv =>
        obtain ⟨k, v⟩ := kv
        rw [hdc] at hscan
        simp only at hscan
        by_cases hk : k0 = k
        · rw [if_pos hk] at hscan
          cases hsc : scanClauses rest (some k0) with
          | none =>
            obtain ⟨c2, hc2, kv2, hkv2, hne⟩ := ih.mp hsc
            exact ⟨c2, List.mem_cons_of_mem c hc2, kv2, hkv2, hne⟩
          | some p => rw [hsc] at hscan; simp at hscan
        · exact ⟨c, List.mem_cons_self c rest, (k, v), hdc,
            fun hkk => hk (by simpa using hkk.symm)⟩
    · rintro ⟨c2, hc2, kv, hkv, hne⟩
      simp only [scanClauses]
      rcases List.mem_cons.mp hc2 with heq | hmem
      · subst heq
        rw [hkv]
        simp only
        rw [if_neg (fun hkk => hne (by simpa using hkk.symm))]
      · cases hdc : clauseDisc c with
        | none =>
          have hsc : scanClauses rest (some k0) = none :=
            ih.mpr ⟨c2, hmem, kv, hkv, hne⟩
          rw [hsc]
        | some kv0 =>
          obtain ⟨k, v⟩ := kv0
          simp only
          by_cases hk : k0 = k
          · rw [if_pos hk]
            have hsc : scanClauses rest (some k0) = none :=
              ih.mpr ⟨c2, hmem, kv, hkv, hne⟩
            rw [hsc]
          · rw [if_neg hk]

/-- With no common key yet, the scan aborts exactly when two clauses report
discriminators under different keys. -/
theorem scanClauses_none_iff :
    ∀ cs : List Clause,
      scanClauses cs none = none ↔
        ∃ c, c ∈ cs ∧ ∃ c2, c2 ∈ cs ∧ ∃ kv kv2 : String × Val,
          clauseDisc c = some kv ∧ clauseDisc c2 = some kv2 ∧ kv.1 ≠ kv2.1 := by
  intro cs
  induction cs with
  | nil => simp [scanClauses]
  | cons c rest ih =>
    constructor
    · intro hscan
      simp only [scanClauses] at hscan
      cases hdc : clauseDisc c with
      | none =>
        rw [hdc] at hscan
        cases hsc : scanClauses rest none with
        | none =>
          obtain ⟨a, ha, b, hb, kv, kv2, hkv, hkv2, hne⟩ := ih.mp hsc
          exact ⟨a, List.mem_cons_of_mem c ha, b, List.mem_cons_of_mem c hb,
            kv, kv2, hkv, hkv2, hne⟩
        | some p => rw [hsc] at hscan; simp at hscan
      | some kv =>
        obtain ⟨k, v⟩ := kv
        rw [hdc] at hscan
        simp only at hscan
        cases hsc : scanClauses rest (some k) with
        | none =>
          obtain ⟨b, hb, kv2, hkv2, hne⟩ := (scanClauses_conflict k rest).mp hsc
          exact ⟨c, List.mem_cons_self c rest, b, List.mem_cons_of_mem c hb,
            (k, v), kv2, hdc, hkv2, fun hkk => hne (by simp [hkk.symm])⟩
        | some p => rw [hsc] at hscan; simp at hscan
    · rintro ⟨a, ha, b, hb, kv, kv2, hkv, hkv2, hne⟩
      simp only [scanClauses]
      cases hdc : clauseDisc c with
      | none =>
        have hamem : a ∈ rest := by
          rcases List.mem_cons.mp ha with heq | hm
          · subst heq; rw [hdc] at hkv; simp at hkv
          · exact hm
        have hbmem : b ∈ rest := by
          rcases List.mem_cons.mp hb with heq | hm
          · subst heq; rw [hdc] at hkv2; simp at hkv2
          · exact hm
        have hsc : scanClauses rest none = none :=
          ih.mpr ⟨a, hamem, b, hbmem, kv, kv2, hkv, hkv2, hne⟩
        rw [hsc]
      | some kv0 =>
        obtain ⟨k, v⟩ := kv0
        simp only
        have key : scanClauses rest (some k) = none := by
          apply (scanClauses_conflict k rest).mpr
          rcases List.mem_cons.mp ha with heqa | hma
          · -- a is the head clause, so kv has key k and b must differ from k
            subst heqa
            rw [hdc] at hkv
            have hk1 : kv.1 = k := by
              cases hkv
              rfl
            rcases List.mem_cons.mp hb with heqb | hmb
            · subst heqb
              rw [hdc] at hkv2
              have hk2 : kv2.1 = k := by
                cases hkv2
                rfl
              exact absurd (hk1.trans hk2.symm) hne
            · exact ⟨b, hmb, kv2, hkv2, fun hbk => hne (hk1.trans hbk.symm)⟩
          · rcases List.mem_cons.mp hb with heqb | hmb
            · subst heqb
              rw [hdc] at hkv2
              have hk2 : kv2.1 = k := by
                cases hkv2
                rfl
              exact ⟨a, hma, kv, hkv, fun hak => hne (hak.trans hk2.symm)⟩
            · by_cases hak : kv.1 = k
              · exact ⟨b, hmb, kv2, hkv2, fun hbk => hne (hak.trans hbk.symm)⟩
              · exact ⟨a, hma, kv, hkv, hak⟩
        rw [key]

/-- A scan started with no common key ends with none exactly when no clause
has a discriminator. -/
theorem scanClauses_some_none_iff :
    ∀ (cs : List Clause) (ds : List (Option (String × Val))) (ck2 : Option String),
      scanClauses cs none = some (ds, ck2) →
      (ck2 = none ↔ ∀ c, c ∈ cs → clauseDisc c = none) := by
  intro cs
  induction cs with
  | nil =>
    intro ds ck2 hscan
    simp [scanClauses] at hscan
    simp [hscan.2.symm]
  | cons c rest ih =>
    intro ds ck2 hscan
    simp only [scanClauses] at hscan
    cases hdc : clauseDisc c with
    | none =>
      rw [hdc] at hscan
      cases hsc : scanClauses rest none with
      | none => rw [hsc] at hscan; simp at hscan
      | some p =>
        rw [hsc] at hscan
        simp at hscan
        rw [← hscan.2]
        rw [ih p.1 p.2 (by rw [hsc])]
        constructor
        · intro hall c2 hc2
          rcases List.mem_cons.mp hc2 with heq | hm
          · subst heq; exact hdc
          · exact hall c2 hm
        · intro hall c2 hc2
          exact hall c2 (List.mem_cons_of_mem c hc2)
    | some kv =>
      obtain ⟨k, v⟩ := kv
      rw [hdc] at hscan
      simp only at hscan
      cases hsc : scanClauses rest (some k) with
      | none => rw [hsc] at hscan; simp at hscan
      | some p =>
        rw [hsc] at hscan
        simp at hscan
        have hp2 : p.2 = some k := scanClauses_some_fixed k rest p.1 p.2 (by rw [hsc])
        rw [← hscan.2, hp2]
        constructor
        · intro habs; simp at habs
        · intro hall
          exact absurd (hall c (List.mem_cons_self c rest)) (by simp [hdc])

/-- The scan records exactly each clause's discriminator, positionally. -/
theorem scanClauses_positional :
    ∀ (cs : List Clause) (ck : Option String) (ds : List (Option (String × Val)))
      (ck2 : Option String),
      scanClauses cs ck = some (ds, ck2) →
      ∀ (i : Nat) (c : Clause), cs.get? i = some c → ds.get? i = some (clauseDisc c) := by
  intro cs
  induction cs with
  | nil => intro ck ds ck2 hscan i c hi; cases i <;> simp at hi
  | cons c0 rest ih =>
    intro ck ds ck2 hscan i c hi
    simp only [scanClauses] at hscan
    cases hdc : clauseDisc c0 with
    | none =>
      rw [hdc] at hscan
      cases hsc : scanClauses rest ck with
      | none => rw [hsc] at hscan; simp at hscan
      | some p =>
        rw [hsc] at hscan
        simp at hscan
        rw [← hscan.1]
        cases i with
        | zero => simp at hi; subst hi; simp [hdc]
        | succ i =>
          simp only [List.get?_cons_succ] at hi ⊢
          exact ih ck p.1 p.2 (by rw [hsc]) i c hi
    | some kv =>
      obtain ⟨k, v⟩ := kv
      rw [hdc] at hscan
      simp only at hscan
      cases ck with
      | none =>
        cases hsc : scanClauses rest (some k) with
        | none => rw [hsc] at hscan; simp at hscan
        | some p =>
          rw [hsc] at hscan
          simp at hscan
          rw [← hscan.1]
          cases i with
          | zero => simp at hi; subst hi; simp [hdc]
          | succ i =>
            simp only [List.get?_cons_succ] at hi ⊢
            exact ih (some k) p.1 p.2 (by rw [hsc]) i c hi
      | some k0 =>
        simp only at hscan
        by_cases hk : k0 = k
        · rw [if_pos hk] at hscan
          cases hsc : scanClauses rest (some k0) with
          | none => rw [hsc] at hscan; simp at hscan
          | some p =>
            rw [hsc] at hscan
            simp at hscan
            rw [← hscan.1]
            cases i with
            | zero => simp at hi; subst hi; simp [hdc]
            | succ i =>
              simp only [List.get?_cons_succ] at hi ⊢
              exact ih (some k0) p.1 p.2 (by rw [hsc]) i c hi
        · rw [if_neg hk] at hscan; simp at hscan

/-- Membership in the fallback accumulation. -/
theorem mem_fallbackOfAux :
    ∀ (ds : List (Option (String × Val))) (n j : Nat),
      j ∈ fallbackOfAux ds n ↔ ∃ i, j = n + i ∧ ds.get? i = some none := by
  intro ds
  induction ds with
  | nil =>
    intro n j
    simp [fallbackOfAux]
  | cons d rest ih =>
    intro n j
    cases d with
    | none =>
      simp only [fallbackOfAux, List.mem_cons]
      constructor
      · rintro (heq | hm)
        · exact ⟨0, by simpa using heq, rfl⟩
        · obtain ⟨i, hji, hget⟩ := (ih (n + 1) j).mp hm
          exact ⟨i + 1, by omega, by simpa using hget⟩
      · rintro ⟨i, hji, hget⟩
        cases i with
        | zero => left; simpa using hji
        | succ i =>
          right
          exact (ih (n + 1) j).mpr ⟨i, by omega, by simpa using hget⟩
    | some kv =>
      simp only [fallbackOfAux]
      rw [ih (n + 1) j]
      constructor
      · rintro ⟨i, hji, hget⟩
        exact ⟨i + 1, by omega, by simpa using hget⟩
      · rintro ⟨i, hji, hget⟩
        cases i with
        | zero => simp at hget
        | succ i => exact ⟨i, by omega, by simpa using hget⟩

-- ─── Claim theorems ──────────────────────────────────────────────────────────

/-- C1: the claim states that the dispatch-table-assisted executor always
selects the same clause (and value) as a pure linear scan. Evaluating the code
at the failing input: for the clause list pairing a `type: "a"` schema with an
any-object schema (clause 0) and a `type: "c"` schema (clause 1), on input
`{type: "b"}` the dispatch-assisted `exec` reports no match, while the linear
scan matches clause 0 via its second schema — and a dispatch table was indeed
built and consulted. -/
theorem c1_dispatch_prunes_reachable_clause :
    exec c1Matcher c1Input = .ok none
    ∧ linearScan c1Matcher.clauses c1Input = .ok (some c1Input)
    ∧ (buildDispatchTable c1Matcher.clauses).isSome = true :=
  ⟨rfl, rfl, rfl⟩

/-- C2: the claim states a precheck is classified complete only if the schema
tree contains no refinement anywhere. Evaluating the code at the failing
input: `c2Def` is a union carrying one node-level check (a refinement), yet
`compileZodLikePrecheck` marks it complete (the union branch never consults
`hasChecks`); consequently the compiled matcher skips full validation and
returns the raw input `"a"` as a match, although the run path — which applies
the refinement — would have reported no match. -/
theorem c2_union_checks_marked_complete :
    (compileZodLikePrecheck c2Def).map PrecheckRes.complete = some true
    ∧ (match c2Def with | .union _ cks => cks.length | _ => 0) = 1
    ∧ compileZodMatcherSync c2Def c2Run (Val.vStr "a") = .matched (Val.vStr "a")
    ∧ zodRunPath c2Run (Val.vStr "a") = .noMatch :=
  ⟨rfl, rfl, rfl, rfl⟩

/-- C3: the claim states every derived partial precheck is a necessary
condition for full validation. Evaluating the code at the failing input: for
the union of a string schema and an unrecognized schema, the derived partial
precheck rejects the plain-object input `{}` (only the string option
compiled), so the compiled matcher reports no match without consulting `run`,
although full validation — modelled from the spec — accepts it via the
unrecognized option, as the run path would. -/
theorem c3_union_precheck_false_negative :
    (compileZodLikePrecheck c3Def).map (fun r => r.check c3Input) = some false
    ∧ (compileZodLikePrecheck c3Def).map PrecheckRes.complete = some false
    ∧ zodAccepts c3Def c3Input = true
    ∧ compileZodMatcherSync c3Def c3Run c3Input = .noMatch
    ∧ zodRunPath c3Run c3Input = .matched c3Input :=
  ⟨rfl, rfl, rfl, rfl, rfl⟩

/-- C4 counterexample: the claim states that a handler returning a pending
computation on the synchronous path raises an immediate hard error and is
never silently coerced into a returned pending value; but for the matcher
whose always-matching clause has a handler returning a promise, the sync
executor returns that pending value as a successful match. -/
theorem c4_async_handler_silently_returned :
    exec c4Matcher (Val.vNum 1) = .ok (some (Val.vPromise 0)) := rfl

/-- C4 (amended): whenever the synchronous execution path encounters an
asynchronous validator (`ASYNC_REQUIRED`), an asynchronous guard, or an
asynchronous bare predicate — after any earlier schemas of the clause either
reported no match or fell through on a falsy guard, and after any earlier
surviving clauses fell through — it raises the corresponding immediate hard
error directing the caller to the asynchronous API, never a silent no-match;
an asynchronous handler, however, is not detected (its pending result is
returned as the match value). -/
theorem c4_sync_async_hard_error :
    (∀ (p : Val → Val) (h : Val → Val → Val) (input : Val),
        isPromiseLike (p input) = true →
        execClause (.whenClause p h) input = .error .predicatePromise)
    ∧ (∀ (ss : List Schema) (g : Option (Val → Val → Val)) (h : Val → Val → Val)
        (input : Val) (j : Nat) (s : Schema),
        ss.get? j = some s →
        (∀ k s2, k < j → ss.get? k = some s2 → stepContinues g input s2 = true) →
        (s.attemptSync input = .asyncRequired →
          execClause (.schemaClause ss g h) input = .error .schemaAsyncRequired)
        ∧ (∀ (gf : Val → Val → Val) (v : Val), g = some gf →
            s.attemptSync input = .matched v → isPromiseLike (gf v input) = true →
            execClause (.schemaClause ss g h) input = .error .guardPromise))
    ∧ (∀ (m : RMatcher) (input : Val) (i : Nat) (c : Clause) (e : MErr),
        m.clauses.get? i = some c → activeKeep m input i = true →
        execClause c input = .error e →
        (∀ k c2, k < i → m.clauses.get? k = some c2 → activeKeep m input k = true →
          execClause c2 input = .ok none) →
        exec m input = .error e) := by
  refine ⟨?_, ?_, ?_⟩
  · intro p h input hp
    simp only [execClause, hp, if_true]
  · intro ss g h input j s hj hcont
    have hskip : execSchemas ss g h input = execSchemas (ss.drop j) g h input :=
      execSchemas_skip g h input ss j hcont
    have hdrop : ss.drop j = s :: ss.drop (j + 1) := drop_eq_cons_of_get? ss j s hj
    constructor
    · intro hasync
      show execSchemas ss g h input = .error .schemaAsyncRequired
      rw [hskip, hdrop]
      conv_lhs => rw [execSchemas]
      rw [hasync]
    · intro gf v hg hmatch hpromise
      show execSchemas ss g h input = .error .guardPromise
      rw [hskip, hdrop]
      conv_lhs => rw [execSchemas]
      rw [hmatch, hg]
      simp [hpromise]
  · intro m input i c e hi hkeep herr hprev
    have hrun : runClauses m.clauses (activeKeep m input) input 0 = .error e := by
      apply runClauses_error_propagates input m.clauses (activeKeep m input) 0 i c e hi
      · rw [Nat.zero_add]; exact hkeep
      · exact herr
      · intro k c2 hki hk hkk
        rw [Nat.zero_add] at hkk
        exact hprev k c2 hki hk hkk
    show (runClauses m.clauses (activeKeep m input) input 0).map _ = .error e
    rw [hrun]
    rfl

/-- C4 witness: at a concrete matcher whose single clause holds an
asynchronous validator, the sync executor raises the async-required hard
error. -/
theorem c4_sync_async_hard_error_witness :
    exec c4wMatcher (Val.vNum 1) = .error .schemaAsyncRequired := by
  apply c4_sync_async_hard_error.2.2 c4wMatcher (Val.vNum 1) 0
    (.schemaClause [asyncOnlySchema] none (fun v _ => v)) .schemaAsyncRequired rfl rfl
  · exact (c4_sync_async_hard_error.2.1 [asyncOnlySchema] none (fun v _ => v)
      (Val.vNum 1) 0 asyncOnlySchema rfl (fun k s2 hk => by omega)).1 rfl
  · intro k c2 hk
    omega

/-- C5: for a guarded clause, when schema `j` accepts the value but the guard
returns a non-promise falsy result, the schema loop from position `j` equals
the loop from position `j + 1` — execution falls through to the next schema of
the same clause — and a clause all of whose schema attempts fell through
(`execClause` = no match) merely hands the scan to the remaining clauses, never
terminating the whole match. -/
theorem c5_guard_fallthrough (ss : List Schema) (g : Val → Val → Val)
    (h : Val → Val → Val) (input : Val) (j : Nat) (s : Schema) (w : Val)
    (hj : ss.get? j = some s)
    (hm : s.attemptSync input = .matched w)
    (hp : isPromiseLike (g w input) = false)
    (hf : truthy (g w input) = false) :
    execSchemas (ss.drop j) (some g) h input
      = execSchemas (ss.drop (j + 1)) (some g) h input
    ∧ (∀ rest : List Clause,
        execClause (.schemaClause ss (some g) h) input = .ok none →
        linearScan (Clause.schemaClause ss (some g) h :: rest) input
          = linearScan rest input) := by
  constructor
  · rw [drop_eq_cons_of_get? ss j s hj]
    conv_lhs => rw [execSchemas]
    rw [hm]
    simp [hp, hf]
  · intro rest hok
    show runClauses (Clause.schemaClause ss (some g) h :: rest) (fun _ => true) input 0
      = linearScan rest input
    rw [runClauses]
    simp only [if_true, hok]
    exact runClauses_true_index input rest 1 0

/-- C5 witness: in the concrete guarded clause `[isExactly 2, anyValue]` with
an always-false guard, input `2` matches the first schema, the guard fails,
and the loop continues with the second schema; the exhausted clause hands over
to the following clauses. -/
theorem c5_guard_fallthrough_witness :
    execSchemas ([isExactly 40 2, anyValueSchema].drop 0)
        (some (fun _ _ => Val.vBool false)) (fun v _ => v) (Val.vNum 2)
      = execSchemas ([isExactly 40 2, anyValueSchema].drop 1)
        (some (fun _ _ => Val.vBool false)) (fun v _ => v) (Val.vNum 2)
    ∧ linearScan [c5Clause,
        Clause.schemaClause [anyValueSchema] none (fun _ _ => Val.vStr "next")]
        (Val.vNum 2)
      = linearScan [Clause.schemaClause [anyValueSchema] none (fun _ _ => Val.vStr "next")]
        (Val.vNum 2) := by
  have base := c5_guard_fallthrough [isExactly 40 2, anyValueSchema]
    (fun _ _ => Val.vBool false) (fun v _ => v) (Val.vNum 2) 0 (isExactly 40 2)
    (Val.vNum 2) rfl rfl rfl rfl
  exact ⟨base.1,
    base.2 [Clause.schemaClause [anyValueSchema] none (fun _ _ => Val.vStr "next")] rfl⟩

/-- C6: on total failure with a dispatch table and a plain-object input, if
the discriminator value is absent from the table the error carries exactly one
issue — stating the key, the displayed actual value, and the displayed
expected-value list — built without re-validating any schema (its content is
fixed by the table alone); if the value is present, the consulted schemas are
narrowed to exactly the candidate clauses' schemas and the issues are the
case-number-tagged re-validation issues of those schemas only. -/
theorem c6_discriminator_diagnostics (m : RMatcher) (input : Val)
    (d : DispatchTable) (hd : getDispatch m = some d)
    (hobj : isPlainObject input = true) :
    (tableGet d.table (getField input d.key) = none → allSchemas m ≠ [] →
      (buildMatchError m input).issues =
        [{ message := discMismatchMessage d.key (getField input d.key) d.expectedValues,
           path := some [d.key] }]
      ∧ (buildMatchError m input).discriminator =
          some { key := d.key, value := getField input d.key,
                 expected := d.expectedValues, matched := false })
    ∧ (∀ idxs, tableGet d.table (getField input d.key) = some idxs →
        idxs.flatMap (fun i => ((m.clauses.get? i).map clauseSchemas).getD []) ≠ [] →
        (buildMatchError m input).schemas =
          idxs.flatMap (fun i => ((m.clauses.get? i).map clauseSchemas).getD [])
        ∧ (buildMatchError m input).issues =
            finishIssues
              (collectIssues
                (idxs.flatMap (fun i => ((m.clauses.get? i).map clauseSchemas).getD []))
                input)
              input
        ∧ (buildMatchError m input).discriminator =
            some { key := d.key, value := getField input d.key,
                   expected := d.expectedValues, matched := true }) := by
  constructor
  · intro habsent hne
    unfold buildMatchError
    rw [hd]
    simp only [hobj, if_true, habsent]
    unfold analyzeFailure
    have hne2 : (allSchemas m).isEmpty = false := by
      cases hval : allSchemas m
      · exact absurd hval hne
      · rfl
    simp [hne2]
  · intro idxs hpresent hne
    unfold buildMatchError
    rw [hd]
    simp only [hobj, if_true, hpresent]
    unfold analyzeFailure
    have hne2 : (idxs.flatMap
        (fun i => ((m.clauses.get? i).map clauseSchemas).getD [])).isEmpty = false := by
      cases hval : idxs.flatMap (fun i => ((m.clauses.get? i).map clauseSchemas).getD [])
      · exact absurd hval hne
      · rfl
    simp only [hne2, Bool.false_eq_true, if_false]
    exact ⟨trivial, rfl, rfl⟩

/-- C6 witness: for the two-clause `type`-discriminated matcher, the input
`{type: "unknown"}` (value absent from the table) yields exactly the single
discriminator diagnostic, and the input `{type: "ok"}` (value present) narrows
the consulted schemas to the `"ok"` clause's schema only. -/
theorem c6_discriminator_diagnostics_witness :
    (buildMatchError c6Matcher (Val.vObj [("type", Val.vStr "unknown")])).issues
      = [{ message := discMismatchMessage "type" (Val.vStr "unknown")
             [Val.vStr "ok", Val.vStr "err"],
           path := some ["type"] }]
    ∧ (buildMatchError c6Matcher (Val.vObj [("type", Val.vStr "ok")])).schemas
      = [objTypeIs 50 "ok"] := by
  constructor
  · exact ((c6_discriminator_diagnostics c6Matcher
        (Val.vObj [("type", Val.vStr "unknown")]) c6Table rfl rfl).1 rfl
        (by simp [allSchemas, c6Matcher, clauseSchemas])).1
  · exact ((c6_discriminator_diagnostics c6Matcher
        (Val.vObj [("type", Val.vStr "ok")]) c6Table rfl rfl).2 [0] rfl
        (by simp [c6Matcher, clauseSchemas])).1

/-- C7: building a dispatch table returns null exactly when the clause list
has fewer than two clauses, or no clause yields an extractable discriminator,
or two clauses report different discriminator key names; and whenever a table
is built, every clause with no extractable discriminator (when-clauses
included) is in the fallback index set rather than aborting construction. -/
theorem c7_dispatch_table_none_iff (clauses : List Clause) :
    (buildDispatchTable clauses = none ↔
      clauses.length < 2
      ∨ (∀ c, c ∈ clauses → clauseDisc c = none)
      ∨ (∃ c, c ∈ clauses ∧ ∃ c2, c2 ∈ clauses ∧ ∃ kv kv2 : String × Val,
          clauseDisc c = some kv ∧ clauseDisc c2 = some kv2 ∧ kv.1 ≠ kv2.1))
    ∧ (∀ t, buildDispatchTable clauses = some t →
        ∀ i c, clauses.get? i = some c → clauseDisc c = none → i ∈ t.fallback) := by
  by_cases hlen : clauses.length < 2
  · constructor
    · simp [buildDispatchTable, hlen]
    · intro t ht
      rw [buildDispatchTable, if_pos hlen] at ht
      simp at ht
  · cases hsc : scanClauses clauses none with
    | none =>
      have hbuild : buildDispatchTable clauses = none := by
        rw [buildDispatchTable, if_neg hlen, hsc]
      constructor
      · rw [hbuild]
        constructor
        · intro _
          right; right
          exact (scanClauses_none_iff clauses).mp hsc
        · intro _; rfl
      · intro t ht
        rw [hbuild] at ht
        simp at ht
    | some p =>
      obtain ⟨ds, ck2⟩ := p
      cases hck : ck2 with
      | none =>
        have hbuild : buildDispatchTable clauses = none := by
          rw [buildDispatchTable, if_neg hlen, hsc, hck]
        constructor
        · rw [hbuild]
          constructor
          · intro _
            right; left
            exact (scanClauses_some_none_iff clauses ds ck2 hsc).mp hck
          · intro _; rfl
        · intro t ht
          rw [hbuild] at ht
          simp at ht
      | some k =>
        subst hck
        have hbuild : buildDispatchTable clauses =
            some { key := k, table := buildTableAux ds 0 [], fallback := fallbackOf ds,
                   expectedValues := (buildTableAux ds 0 []).map Prod.fst } := by
          rw [buildDispatchTable, if_neg hlen, hsc]
        constructor
        · rw [hbuild]
          constructor
          · intro habs; simp at habs
          · rintro (h1 | h2 | h3)
            · exact absurd h1 hlen
            · have := (scanClauses_some_none_iff clauses ds (some k) hsc).mpr h2
              simp at this
            · have := (scanClauses_none_iff clauses).mpr h3
              rw [hsc] at this
              simp at this
        · intro t ht
          rw [hbuild] at ht
          have ht2 : t.fallback = fallbackOf ds := by
            cases ht
            rfl
          intro i c hi hdc
          rw [ht2]
          have hpos : ds.get? i = some (clauseDisc c) :=
            scanClauses_positional clauses none ds (some k) hsc i c hi
          rw [hdc] at hpos
          exact (mem_fallbackOfAux ds 0 i).mpr ⟨i, by omega, hpos⟩

/-- C7 witness: for the concrete clause list with a `type: "a"` clause and a
when-clause, a table is built and the when-clause's index 1 is in the fallback
set. -/
theorem c7_dispatch_table_none_iff_witness :
    (1 : Nat) ∈ c7wTable.fallback :=
  (c7_dispatch_table_none_iff c7wClauses).2 c7wTable rfl 1 c7wWhenClause rfl rfl

/-- C8: constructing the diagnostic issues never throws and never yields an
empty list — for every input, including non-stringifiable ones, where the
stringification failure degrades to the `String(value)` placeholder — and when
no per-schema issues are produced (no schemas at all, or an issue-free
validation loop with no discriminator mismatch recorded) a single generic
no-schema-matches message is emitted. -/
theorem c8_diagnostics_total (input : Val) (opts : MatchErrorOptions) :
    analyzeFailure input opts ≠ []
    ∧ (jsonStringify input = none → displayValue input = strOf input)
    ∧ (opts.schemas = [] →
        analyzeFailure input opts =
          [{ message := formatNoMatchMessage input, path := none }])
    ∧ (opts.discriminator = none → collectIssues opts.schemas input = [] →
        analyzeFailure input opts =
          [{ message := formatNoMatchMessage input, path := none }]) := by
  refine ⟨?_, ?_, ?_, ?_⟩
  · unfold analyzeFailure
    by_cases hempty : opts.schemas.isEmpty
    · simp [hempty]
    · simp only [hempty, Bool.false_eq_true, if_false]
      cases hdisc : opts.discriminator with
      | none => exact finishIssues_ne_nil _ input
      | some d =>
        by_cases hm : d.matched
        · simp only [hm, if_true]
          exact finishIssues_ne_nil _ input
        · simp [hm]
  · intro hjson
    unfold displayValue
    rw [hjson]
  · intro hschemas
    unfold analyzeFailure
    simp [hschemas]
  · intro hdisc hcollect
    unfold analyzeFailure
    by_cases hempty : opts.schemas.isEmpty
    · simp [hempty]
    · simp only [hempty, Bool.false_eq_true, if_false, hdisc]
      unfold finishIssues
      rw [hcollect]
      simp

/-- C8 witness: at the BigInt-carrying input (which `JSON.stringify` refuses
to serialize) and empty options, the diagnostic is the single generic message
built from the `String(value)` placeholder, and the placeholder equality
holds. -/
theorem c8_diagnostics_total_witness :
    analyzeFailure (Val.vBig 1) { schemas := [], discriminator := none } ≠ []
    ∧ displayValue (Val.vBig 1) = strOf (Val.vBig 1)
    ∧ analyzeFailure (Val.vBig 1) { schemas := [], discriminator := none }
        = [{ message := formatNoMatchMessage (Val.vBig 1), path := none }] := by
  have base := c8_diagnostics_total (Val.vBig 1)
    { schemas := [], discriminator := none }
  exact ⟨base.1, base.2.1 rfl, base.2.2.1 rfl⟩

/-- Identity lookup hits a freshly stored entry. -/
theorem lookupById_cons_self {CM : Type} (l : List (Nat × CM)) (i : Nat) (m : CM) :
    lookupById ((i, m) :: l) i = some m := by
  simp [lookupById, List.find?]

/-- Identity lookup skips an entry stored under a different identity. -/
theorem lookupById_cons_ne {CM : Type} (l : List (Nat × CM)) (i j : Nat) (m : CM)
    (h : j ≠ i) : lookupById ((j, m) :: l) i = lookupById l i := by
  have hbeq : (j == i) = false := by simp [h]
  simp [lookupById, List.find?, hbeq]

/-- C9: compiling a validator is memoized by object identity — getting the
compiled matcher a second time for the same validator instance returns the
very same matcher with the cache state unchanged (no recompilation, whichever
backend holds the entry); an instance absent from both backends is compiled
exactly then (its identity is appended to the compile log, however another —
possibly structurally identical — instance was handled before); and handling a
distinct instance never disturbs this instance's cached entry. -/
theorem c9_compile_memoized_by_identity {CM : Type} (compile : SchemaObj → CM)
    (s s2 : SchemaObj) (st : CacheState CM) :
    ((getCompiledMatcher compile s (getCompiledMatcher compile s st).2).1
        = (getCompiledMatcher compile s st).1
      ∧ (getCompiledMatcher compile s (getCompiledMatcher compile s st).2).2
        = (getCompiledMatcher compile s st).2)
    ∧ (lookupById st.slots s2.id = none → lookupById st.side s2.id = none →
        (getCompiledMatcher compile s2 st).1 = compile s2
        ∧ (getCompiledMatcher compile s2 st).2.log = st.log ++ [s2.id])
    ∧ (s2.id ≠ s.id →
        lookupById (getCompiledMatcher compile s2 st).2.slots s.id
          = lookupById st.slots s.id
        ∧ lookupById (getCompiledMatcher compile s2 st).2.side s.id
          = lookupById st.side s.id) := by
  refine ⟨?_, ?_, ?_⟩
  · cases h1 : lookupById st.slots s.id with
    | some m =>
      have e1 : getCompiledMatcher compile s st = (m, st) := by
        simp only [getCompiledMatcher, h1]
      rw [e1, e1]
      exact ⟨rfl, rfl⟩
    | none =>
      cases h2 : lookupById st.side s.id with
      | some m =>
        have e1 : getCompiledMatcher compile s st = (m, st) := by
          simp only [getCompiledMatcher, h1, h2]
        rw [e1, e1]
        exact ⟨rfl, rfl⟩
      | none =>
        by_cases ha : s.annotatable
        · have e1 : getCompiledMatcher compile s st =
              (compile s, ⟨(s.id, compile s) :: st.slots, st.side, st.log ++ [s.id]⟩) := by
            simp only [getCompiledMatcher, h1, h2]
            rw [if_pos ha]
          rw [e1]
          have e2 : getCompiledMatcher compile s
              ⟨(s.id, compile s) :: st.slots, st.side, st.log ++ [s.id]⟩ =
              (compile s, ⟨(s.id, compile s) :: st.slots, st.side, st.log ++ [s.id]⟩) := by
            simp only [getCompiledMatcher, lookupById_cons_self]
          rw [e2]
          exact ⟨rfl, rfl⟩
        · have e1 : getCompiledMatcher compile s st =
              (compile s, ⟨st.slots, (s.id, compile s) :: st.side, st.log ++ [s.id]⟩) := by
            simp only [getCompiledMatcher, h1, h2]
            rw [if_neg ha]
          rw [e1]
          have e2 : getCompiledMatcher compile s
              ⟨st.slots, (s.id, compile s) :: st.side, st.log ++ [s.id]⟩ =
              (compile s, ⟨st.slots, (s.id, compile s) :: st.side, st.log ++ [s.id]⟩) := by
            simp only [getCompiledMatcher, h1, lookupById_cons_self]
          rw [e2]
          exact ⟨rfl, rfl⟩
  · intro h1 h2
    by_cases ha : s2.annotatable
    · have e1 : getCompiledMatcher compile s2 st =
          (compile s2, ⟨(s2.id, compile s2) :: st.slots, st.side, st.log ++ [s2.id]⟩) := by
        simp only [getCompiledMatcher, h1, h2]
        rw [if_pos ha]
      rw [e1]
      exact ⟨rfl, rfl⟩
    · have e1 : getCompiledMatcher compile s2 st =
          (compile s2, ⟨st.slots, (s2.id, compile s2) :: st.side, st.log ++ [s2.id]⟩) := by
        simp only [getCompiledMatcher, h1, h2]
        rw [if_neg ha]
      rw [e1]
      exact ⟨rfl, rfl⟩
  · intro hne
    cases h1 : lookupById st.slots s2.id with
    | some m =>
      have e1 : getCompiledMatcher compile s2 st = (m, st) := by
        simp only [getCompiledMatcher, h1]
      rw [e1]
      exact ⟨rfl, rfl⟩
    | none =>
      cases h2 : lookupById st.side s2.id with
      | some m =>
        have e1 : getCompiledMatcher compile s2 st = (m, st) := by
          simp only [getCompiledMatcher, h1, h2]
        rw [e1]
        exact ⟨rfl, rfl⟩
      | none =>
        by_cases ha : s2.annotatable
        · have e1 : getCompiledMatcher compile s2 st =
              (compile s2, ⟨(s2.id, compile s2) :: st.slots, st.side, st.log ++ [s2.id]⟩) := by
            simp only [getCompiledMatcher, h1, h2]
            rw [if_pos ha]
          rw [e1]
          exact ⟨lookupById_cons_ne st.slots s.id s2.id (compile s2) hne, rfl⟩
        · have e1 : getCompiledMatcher compile s2 st =
              (compile s2, ⟨st.slots, (s2.id, compile s2) :: st.side, st.log ++ [s2.id]⟩) := by
            simp only [getCompiledMatcher, h1, h2]
            rw [if_neg ha]
          rw [e1]
          exact ⟨rfl, lookupById_cons_ne st.side s.id s2.id (compile s2) hne⟩

/-- C9 witness: with an empty cache and the identity-observing compiler, the
second retrieval for instance 5 returns the first retrieval's matcher with the
state untouched; the structurally identical but distinct instance 6 is
compiled independently (the log gains its identity); and handling instance 6
leaves instance 5's slot entry alone. -/
theorem c9_compile_memoized_by_identity_witness :
    ((getCompiledMatcher (fun s => s.id) ⟨5, true⟩
        (getCompiledMatcher (fun s => s.id) ⟨5, true⟩ ⟨[], [], []⟩).2).1
      = (getCompiledMatcher (fun s => s.id) ⟨5, true⟩ ⟨[], [], []⟩).1)
    ∧ ((getCompiledMatcher (fun s => s.id) ⟨6, true⟩ ⟨[], [], []⟩).2.log = [6])
    ∧ (lookupById
        (getCompiledMatcher (fun s => s.id) ⟨6, true⟩
          (getCompiledMatcher (fun s => s.id) ⟨5, true⟩ ⟨[], [], []⟩).2).2.slots 5
      = lookupById (getCompiledMatcher (fun s => s.id) ⟨5, true⟩ ⟨[], [], []⟩).2.slots 5) := by
  refine ⟨?_, ?_, ?_⟩
  · exact (c9_compile_memoized_by_identity (fun s => s.id) ⟨5, true⟩ ⟨6, true⟩
      ⟨[], [], []⟩).1.1
  · exact ((c9_compile_memoized_by_identity (fun s => s.id) ⟨5, true⟩ ⟨6, true⟩
      ⟨[], [], []⟩).2.1 rfl rfl).2
  · exact ((c9_compile_memoized_by_identity (fun s => s.id) ⟨5, true⟩ ⟨6, true⟩
      (getCompiledMatcher (fun s => s.id) ⟨5, true⟩ ⟨[], [], []⟩).2).2.2
      (by decide)).1

/-- C10: a reusable matcher is itself a valid validator: when execution
matches some clause, its `~standard.validate` returns the success result
carrying the handler's value; when execution completes with no clause matched
(the terminal being the unmatched state), it returns a failure result whose
issue list — built by the throwing-schemas-skipping loop — is never empty. -/
theorem c10_matcher_is_validator (m : RMatcher) (input : Val) :
    (∀ w, exec m input = .ok (some w) → rmValidate m input = .ok (.ok w))
    ∧ (exec m input = .ok none →
        rmValidate m input = .ok (.error (buildFailureResult m input))
        ∧ buildFailureResult m input ≠ []) := by
  constructor
  · intro w hexec
    unfold rmValidate
    rw [hexec]
    rfl
  · intro hexec
    constructor
    · unfold rmValidate
      rw [hexec]
      rfl
    · exact finishIssues_ne_nil _ input

/-- C10 witness: the single-clause matcher whose schema accepts only `2`
validates `2` to the success result and validates `3` to a failure result with
a non-empty issue list. -/
theorem c10_matcher_is_validator_witness :
    rmValidate { terminal := none,
                 clauses := [.schemaClause [isExactly 70 2] none (fun v _ => v)] }
        (Val.vNum 2) = .ok (.ok (Val.vNum 2))
    ∧ rmValidate { terminal := none,
                   clauses := [.schemaClause [isExactly 70 2] none (fun v _ => v)] }
        (Val.vNum 3)
      = .ok (.error (buildFailureResult
          { terminal := none,
            clauses := [.schemaClause [isExactly 70 2] none (fun v _ => v)] }
          (Val.vNum 3))) := by
  constructor
  · exact (c10_matcher_is_validator
      { terminal := none,
        clauses := [.schemaClause [isExactly 70 2] none (fun v _ => v)] }
      (Val.vNum 2)).1 (Val.vNum 2) rfl
  · exact ((c10_matcher_is_validator
      { terminal := none,
        clauses := [.schemaClause [isExactly 70 2] none (fun v _ => v)] }
      (Val.vNum 3)).2 rfl).1
